import Mathlib

/-!
Verification of the lyric-to-visual synchronization engine of the
MusicVideosAutomate repository. Each component of the pipeline is shallowly
embedded as executable Lean definitions translated from the Python source
(`src/agents/consolidate_clips.py`, `src/agents/semantic_matcher.py`,
`src/agents/phrase_grouper.py`, `src/agents/3_rank_visuals.py`,
`src/agents/build_format_media_plan.py`); times and scores are rationals.
-/

/-! ## Clip consolidator (`src/agents/consolidate_clips.py`) -/

/-- A topic group as produced by the phrase grouper: timing, topic label and
key terms (dict fields `group_id`, `topic`, `start_time`, `end_time`,
`duration`, `key_terms`). -/
structure TopicGroup where
  group_id : Nat
  topic : String
  start_time : ℚ
  end_time : ℚ
  duration : ℚ
  key_terms : List String
  deriving Repr, DecidableEq

/-- Consolidation configuration (`target_clip_duration`, `min_clip_duration`,
`max_clip_duration`, `semantic_coherence_threshold`). -/
structure ConsolConfig where
  target_clip_duration : ℚ
  min_clip_duration : ℚ
  max_clip_duration : ℚ
  semantic_coherence_threshold : ℚ
  deriving Repr, DecidableEq

/-- A consolidated clip (`consolidate_phrase_groups` output dict). -/
structure ConsolidatedClip where
  clip_id : Nat
  phrase_groups : List TopicGroup
  start_time : ℚ
  end_time : ℚ
  duration : ℚ
  topics : List String
  key_terms : List String
  deriving Repr, DecidableEq

/-- `calculate_topic_similarity`: Jaccard ratio of the two key-term sets,
0 if either set is empty (Python sets of the `key_terms` lists). -/
def calculate_topic_similarity (terms1 terms2 : List String) : ℚ :=
  let s1 := terms1.toFinset
  let s2 := terms2.toFinset
  if s1 = ∅ ∨ s2 = ∅ then 0
  else
    let inter := (s1 ∩ s2).card
    let union := (s1 ∪ s2).card
    if 0 < union then (inter : ℚ) / (union : ℚ) else 0

/-- The fresh one-group clip built both for the seed group and whenever a new
clip is started (`current_clip = {...}` in `consolidate_phrase_groups`). -/
def initClip (id : Nat) (g : TopicGroup) : ConsolidatedClip :=
  { clip_id := id
    phrase_groups := [g]
    start_time := g.start_time
    end_time := g.end_time
    duration := g.duration
    topics := [g.topic]
    key_terms := g.key_terms }

/-- Appending the candidate group's key terms that are not already present
(the `for term in group.get("key_terms", [])` loop). -/
def addUniqueTerms (cur new : List String) : List String :=
  new.foldl (fun acc t => if t ∈ acc then acc else acc ++ [t]) cur

/-- Merging the candidate group into the current clip (the `should_merge`
branch of `consolidate_phrase_groups`). -/
def mergeGroup (c : ConsolidatedClip) (g : TopicGroup) : ConsolidatedClip :=
  { c with
    phrase_groups := c.phrase_groups ++ [g]
    end_time := g.end_time
    duration := g.end_time - c.start_time
    topics := c.topics ++ [g.topic]
    key_terms := addUniqueTerms c.key_terms g.key_terms }

/-- The `should_merge` condition of `consolidate_phrase_groups`. -/
def shouldMerge (cfg : ConsolConfig) (c : ConsolidatedClip) (g : TopicGroup) : Bool :=
  let currentDuration := c.duration
  let potentialDuration := g.end_time - c.start_time
  let similarity := calculate_topic_similarity c.key_terms g.key_terms
  ((currentDuration < cfg.target_clip_duration ∧
      cfg.semantic_coherence_threshold ≤ similarity) ∨
    currentDuration < cfg.min_clip_duration) ∧
    potentialDuration ≤ cfg.max_clip_duration

/-- One iteration of the `for i in range(1, len(phrase_groups))` loop:
state is (closed clips, current clip). -/
def consolStep (cfg : ConsolConfig) (st : List ConsolidatedClip × ConsolidatedClip)
    (g : TopicGroup) : List ConsolidatedClip × ConsolidatedClip :=
  let (done, cur) := st
  if shouldMerge cfg cur g then (done, mergeGroup cur g)
  else
    let done2 := done ++ [cur]
    (done2, initClip (done2.length + 1) g)

/-- `consolidate_phrase_groups`: greedy left-to-right consolidation of topic
groups, the final clip always emitted. -/
def consolidate_phrase_groups (phrase_groups : List TopicGroup) (cfg : ConsolConfig) :
    List ConsolidatedClip :=
  match phrase_groups with
  | [] => []
  | g0 :: rest =>
    let st := rest.foldl (consolStep cfg) ([], initClip 1 g0)
    st.1 ++ [st.2]

/-- Modelled from the spec: the merge rule exactly as the specification words
it — merge when ((current duration below `minClipDuration`) or (current
duration below `targetClipDuration` and Jaccard similarity at least
`semanticCoherenceThreshold`)) and the merged duration (candidate end minus
current start) does not exceed `maxClipDuration`. -/
def specShouldMerge (cfg : ConsolConfig) (c : ConsolidatedClip) (g : TopicGroup) : Bool :=
  (c.duration < cfg.min_clip_duration ∨
    (c.duration < cfg.target_clip_duration ∧
      cfg.semantic_coherence_threshold ≤ calculate_topic_similarity c.key_terms g.key_terms)) ∧
    g.end_time - c.start_time ≤ cfg.max_clip_duration

/-- Modelled from the spec: one consolidation step — merge exactly when
`specShouldMerge` holds, otherwise close the current clip and start a new
one with the candidate group. -/
def specConsolStep (cfg : ConsolConfig) (st : List ConsolidatedClip × ConsolidatedClip)
    (g : TopicGroup) : List ConsolidatedClip × ConsolidatedClip :=
  if specShouldMerge cfg st.2 g then (st.1, mergeGroup st.2 g)
  else (st.1 ++ [st.2], initClip (st.1.length + 2) g)

/-- Modelled from the spec: left-to-right consolidation driven by
`specConsolStep`, always emitting the final clip. -/
def specConsolidate (phrase_groups : List TopicGroup) (cfg : ConsolConfig) :
    List ConsolidatedClip :=
  match phrase_groups with
  | [] => []
  | g0 :: rest =>
    let st := rest.foldl (specConsolStep cfg) ([], initClip 1 g0)
    st.1 ++ [st.2]

theorem consolStep_eq_spec (cfg : ConsolConfig) (st : List ConsolidatedClip × ConsolidatedClip)
    (g : TopicGroup) : consolStep cfg st g = specConsolStep cfg st g := by
  rcases st with ⟨done, cur⟩
  have hcond : shouldMerge cfg cur g = specShouldMerge cfg cur g := by
    simp only [shouldMerge, specShouldMerge]
    by_cases h1 : cur.duration < cfg.min_clip_duration <;>
      by_cases h2 : cur.duration < cfg.target_clip_duration <;>
        by_cases h3 : cfg.semantic_coherence_threshold ≤
            calculate_topic_similarity cur.key_terms g.key_terms <;>
          simp [h1, h2, h3]
  simp only [consolStep, specConsolStep, hcond]
  rcases h : specShouldMerge cfg cur g with _ | _ <;>
    simp [h, List.length_append]

theorem consolidate_eq_spec (phrase_groups : List TopicGroup) (cfg : ConsolConfig) :
    consolidate_phrase_groups phrase_groups cfg = specConsolidate phrase_groups cfg := by
  have hstep : consolStep cfg = specConsolStep cfg := by
    funext st g; exact consolStep_eq_spec cfg st g
  cases phrase_groups with
  | nil => rfl
  | cons g0 rest =>
    simp only [consolidate_phrase_groups, specConsolidate, hstep]

theorem consolidate_pair_merge (cfg : ConsolConfig) (a b : TopicGroup)
    (h : shouldMerge cfg (initClip 1 a) b = true) :
    consolidate_phrase_groups [a, b] cfg = [mergeGroup (initClip 1 a) b] := by
  simp [consolidate_phrase_groups, consolStep, h]

/-- **C1.** The consolidator processes groups left to right and merges the next
group into the current clip exactly when ((current duration below
`minClipDuration`) or (current duration below `targetClipDuration` and Jaccard
similarity of the key-term sets, 0 if either is empty, at least
`semanticCoherenceThreshold`)) and the merged duration (next end minus current
start) does not exceed `maxClipDuration`; otherwise it closes the clip and
starts a new one, and the final clip is always emitted. In particular two
adjacent groups of durations 1.5s and 1.8s with `minClipDuration = 4.0` are
force-merged into one clip regardless of their key terms (hence regardless of
similarity). -/
theorem C1_consolidation_merge_rule :
    (∀ (groups : List TopicGroup) (cfg : ConsolConfig),
      consolidate_phrase_groups groups cfg = specConsolidate groups cfg) ∧
    (∀ kt1 kt2 : List String,
      (consolidate_phrase_groups
        [⟨1, "t1", 0, 3/2, 3/2, kt1⟩, ⟨2, "t2", 3/2, 33/10, 9/5, kt2⟩]
        ⟨8, 4, 15, 1/2⟩).length = 1) := by
  constructor
  · exact consolidate_eq_spec
  · intro kt1 kt2
    have h : shouldMerge ⟨8, 4, 15, 1/2⟩
        (initClip 1 ⟨1, "t1", 0, 3/2, 3/2, kt1⟩) ⟨2, "t2", 3/2, 33/10, 9/5, kt2⟩ = true := by
      simp only [shouldMerge, initClip, decide_eq_true_eq]
      exact ⟨Or.inr (by norm_num), by norm_num⟩
    rw [consolidate_pair_merge _ _ _ h]
    rfl

/-- The list of one-group clips numbered consecutively from `n` — the shape
consolidation takes when every group closes its own clip. -/
def numberedClips (n : Nat) : List TopicGroup → List ConsolidatedClip
  | [] => []
  | g :: gs => initClip n g :: numberedClips (n + 1) gs

/-- **C9.** If every group's duration equals `targetClipDuration` and adjacent
groups have key-term similarity 1.0, with `min ≤ target ≤ max`, consolidation
yields exactly one ConsolidatedClip per input group, each containing that
single group with its start, end and duration unchanged (ids numbered
from 1). -/
theorem C9_coherent_input_identity (groups : List TopicGroup) (cfg : ConsolConfig)
    (hmt : cfg.min_clip_duration ≤ cfg.target_clip_duration)
    (htm : cfg.target_clip_duration ≤ cfg.max_clip_duration)
    (hdur : ∀ g ∈ groups, g.duration = cfg.target_clip_duration)
    (hsim : groups.Chain' (fun a b =>
      calculate_topic_similarity a.key_terms b.key_terms = 1)) :
    consolidate_phrase_groups groups cfg = numberedClips 1 groups := by
  clear hsim htm
  have hclose : ∀ (cur : ConsolidatedClip) (g : TopicGroup),
      cur.duration = cfg.target_clip_duration → shouldMerge cfg cur g = false := by
    intro cur g hc
    simp only [shouldMerge, decide_eq_false_iff_not]
    rintro ⟨h1 | h2, -⟩
    · exact absurd h1.1 (by rw [hc]; exact lt_irrefl _)
    · exact absurd h2 (by rw [hc]; exact not_lt.mpr hmt)
  have key : ∀ (rest : List TopicGroup),
      (∀ g ∈ rest, g.duration = cfg.target_clip_duration) →
      ∀ (done : List ConsolidatedClip) (cur : ConsolidatedClip),
        cur.duration = cfg.target_clip_duration →
        (rest.foldl (consolStep cfg) (done, cur)).1 ++
            [(rest.foldl (consolStep cfg) (done, cur)).2] =
          done ++ cur :: numberedClips (done.length + 2) rest := by
    intro rest
    induction rest with
    | nil => intro _ done cur _; simp [numberedClips]
    | cons g rest ih =>
      intro hall done cur hcur
      have hstep : consolStep cfg (done, cur) g =
          (done ++ [cur], initClip (done.length + 2) g) := by
        simp [consolStep, hclose cur g hcur]
      rw [List.foldl_cons, hstep,
        ih (fun g' hg' => hall g' (List.mem_cons_of_mem _ hg'))
          (done ++ [cur]) (initClip (done.length + 2) g)
          (by simp [initClip, hall g (List.mem_cons_self _ _)])]
      simp [numberedClips, List.length_append]
  cases groups with
  | nil => rfl
  | cons g0 rest =>
    have h0 : (initClip 1 g0).duration = cfg.target_clip_duration := by
      simp [initClip, hdur g0 (List.mem_cons_self _ _)]
    have hthis := key rest (fun g hg => hdur g (List.mem_cons_of_mem _ hg)) [] (initClip 1 g0) h0
    simp only [List.nil_append, List.length_nil, Nat.zero_add] at hthis
    rw [consolidate_phrase_groups, hthis]
    rfl

theorem consolidate_pair_close (cfg : ConsolConfig) (a b : TopicGroup)
    (h : shouldMerge cfg (initClip 1 a) b = false) :
    consolidate_phrase_groups [a, b] cfg = [initClip 1 a, initClip 2 b] := by
  simp [consolidate_phrase_groups, consolStep, h]

theorem shouldMerge_le_max {cfg : ConsolConfig} {cur : ConsolidatedClip} {g : TopicGroup}
    (h : shouldMerge cfg cur g = true) :
    g.end_time - cur.start_time ≤ cfg.max_clip_duration := by
  simp only [shouldMerge, decide_eq_true_eq] at h
  exact h.2

theorem consolFold_bounds (cfg : ConsolConfig) :
    ∀ (rest : List TopicGroup),
      (∀ g ∈ rest, g.duration = g.end_time - g.start_time ∧ 0 ≤ g.duration ∧
        g.duration ≤ cfg.max_clip_duration) →
      rest.Pairwise (fun a b => a.end_time ≤ b.end_time) →
      ∀ (done : List ConsolidatedClip) (cur : ConsolidatedClip),
        (∀ c ∈ done, 0 ≤ c.duration ∧ c.duration ≤ cfg.max_clip_duration) →
        cur.duration = cur.end_time - cur.start_time →
        0 ≤ cur.duration → cur.duration ≤ cfg.max_clip_duration →
        (∀ g ∈ rest, cur.end_time ≤ g.end_time) →
        ∀ c ∈ (rest.foldl (consolStep cfg) (done, cur)).1 ++
            [(rest.foldl (consolStep cfg) (done, cur)).2],
          0 ≤ c.duration ∧ c.duration ≤ cfg.max_clip_duration := by
  intro rest
  induction rest with
  | nil =>
    intro _ _ done cur hdone hceq hc0 hcmax _ c hc
    rcases List.mem_append.mp hc with h | h
    · exact hdone c h
    · rcases List.mem_singleton.mp h with rfl
      exact ⟨hc0, hcmax⟩
  | cons g rest ih =>
    intro hall hpw done cur hdone hceq hc0 hcmax hhead c hc
    rw [List.foldl_cons] at hc
    cases hm : shouldMerge cfg cur g with
    | true =>
      have hstep : consolStep cfg (done, cur) g = (done, mergeGroup cur g) := by
        simp [consolStep, hm]
      rw [hstep] at hc
      have hge : cur.end_time ≤ g.end_time := hhead g (List.mem_cons_self _ _)
      have hcs : cur.start_time ≤ cur.end_time := by
        have := hc0
        rw [hceq] at this
        linarith
      refine ih (fun g' hg' => hall g' (List.mem_cons_of_mem _ hg'))
        (List.Pairwise.of_cons hpw) done (mergeGroup cur g) hdone ?_ ?_ ?_ ?_ c hc
      · simp [mergeGroup]
      · simp only [mergeGroup]
        linarith
      · simpa only [mergeGroup] using shouldMerge_le_max hm
      · intro g' hg'
        simp only [mergeGroup]
        exact List.rel_of_pairwise_cons hpw hg'
    | false =>
      have hstep : consolStep cfg (done, cur) g =
          (done ++ [cur], initClip (done.length + 2) g) := by
        simp [consolStep, hm]
      rw [hstep] at hc
      obtain ⟨hgeq, hg0, hgmax⟩ := hall g (List.mem_cons_self _ _)
      refine ih (fun g' hg' => hall g' (List.mem_cons_of_mem _ hg'))
        (List.Pairwise.of_cons hpw) (done ++ [cur]) (initClip (done.length + 2) g)
        ?_ (by simpa [initClip] using hgeq) (by simpa [initClip] using hg0)
        (by simpa [initClip] using hgmax) ?_ c hc
      · intro c' hc'
        rcases List.mem_append.mp hc' with h | h
        · exact hdone c' h
        · rcases List.mem_singleton.mp h with rfl
          exact ⟨hc0, hcmax⟩
      · intro g' hg'
        simp only [initClip]
        exact List.rel_of_pairwise_cons hpw hg'

/-- **C5 counterexample.** Under the claim's hypotheses (`0 < min ≤ target ≤
max`, non-negative group durations), consolidation of the two groups
`[0,1]` (duration 1) and `[1,20]` (duration 19) with config `target 5, min 4,
max 8` produces a non-terminal clip of duration `1 < minClipDuration` and a
terminal clip of duration `19 > maxClipDuration`, refuting both bounds in the
claim. -/
theorem C5_counterexample :
    ((consolidate_phrase_groups
        [⟨1, "a", 0, 1, 1, ["x"]⟩, ⟨2, "b", 1, 20, 19, ["y"]⟩]
        ⟨5, 4, 8, 1/2⟩).map (fun c => c.duration)) = [1, 19] ∧
      ¬ ((19 : ℚ) ≤ 8) ∧ ((1 : ℚ) < 4) := by
  have hm : shouldMerge ⟨5, 4, 8, 1/2⟩
      (initClip 1 ⟨1, "a", 0, 1, 1, ["x"]⟩) ⟨2, "b", 1, 20, 19, ["y"]⟩ = false := by
    simp only [shouldMerge, initClip, decide_eq_false_iff_not]
    rintro ⟨-, h⟩
    norm_num at h
  refine ⟨?_, by norm_num, by norm_num⟩
  rw [consolidate_pair_close _ _ _ hm]
  rfl

/-- **C5 (amended).** For ordered input (each group's duration equals
`end − start`, is non-negative and at most `maxClipDuration`, and end times
are nondecreasing), under `0 < min ≤ target ≤ max` every ConsolidatedClip
produced by consolidation has duration between 0 and `maxClipDuration`
inclusive. (Clips other than the terminal one may still be shorter than
`minClipDuration` when the max-duration cap blocks a merge.) -/
theorem C5_clip_duration_bounds (groups : List TopicGroup) (cfg : ConsolConfig)
    (hmin : 0 < cfg.min_clip_duration)
    (hmt : cfg.min_clip_duration ≤ cfg.target_clip_duration)
    (htm : cfg.target_clip_duration ≤ cfg.max_clip_duration)
    (hdur : ∀ g ∈ groups, g.duration = g.end_time - g.start_time ∧ 0 ≤ g.duration ∧
      g.duration ≤ cfg.max_clip_duration)
    (hmono : groups.Pairwise (fun a b => a.end_time ≤ b.end_time)) :
    ∀ c ∈ consolidate_phrase_groups groups cfg,
      0 ≤ c.duration ∧ c.duration ≤ cfg.max_clip_duration := by
  cases groups with
  | nil => intro c hc; simp [consolidate_phrase_groups] at hc
  | cons g0 rest =>
    intro c hc
    obtain ⟨h0eq, h00, h0max⟩ := hdur g0 (List.mem_cons_self _ _)
    refine consolFold_bounds cfg rest
      (fun g hg => hdur g (List.mem_cons_of_mem _ hg))
      (List.Pairwise.of_cons hmono) [] (initClip 1 g0)
      (by intro c' hc'; simp at hc')
      (by simpa [initClip] using h0eq)
      (by simpa [initClip] using h00)
      (by simpa [initClip] using h0max)
      ?_ c hc
    intro g' hg'
    simp only [initClip]
    exact List.rel_of_pairwise_cons hmono hg'

theorem C5_clip_duration_bounds_witness :
    0 ≤ (mergeGroup (initClip 1 ⟨1, "a", 0, 2, 2, ["x"]⟩) ⟨2, "b", 2, 4, 2, ["x"]⟩).duration ∧
      (mergeGroup (initClip 1 ⟨1, "a", 0, 2, 2, ["x"]⟩)
          ⟨2, "b", 2, 4, 2, ["x"]⟩).duration ≤ (8 : ℚ) :=
  C5_clip_duration_bounds [⟨1, "a", 0, 2, 2, ["x"]⟩, ⟨2, "b", 2, 4, 2, ["x"]⟩]
    ⟨5, 4, 8, 1/2⟩ (by norm_num) (by norm_num) (by norm_num)
    (by intro g hg; fin_cases hg <;> refine ⟨?_, ?_, ?_⟩ <;> norm_num)
    (by norm_num [List.pairwise_cons])
    _ (by
        rw [consolidate_pair_merge _ _ _ (by
          simp only [shouldMerge, initClip, decide_eq_true_eq]
          exact ⟨Or.inr (by norm_num), by norm_num⟩)]
        exact List.mem_singleton.mpr rfl)

theorem C9_coherent_input_identity_witness :
    consolidate_phrase_groups
        [⟨1, "a", 0, 5, 5, ["x"]⟩, ⟨2, "b", 5, 10, 5, ["x"]⟩] ⟨5, 4, 8, 1/2⟩ =
      numberedClips 1 [⟨1, "a", 0, 5, 5, ["x"]⟩, ⟨2, "b", 5, 10, 5, ["x"]⟩] :=
  C9_coherent_input_identity _ ⟨5, 4, 8, 1/2⟩ (by norm_num) (by norm_num)
    (by intro g hg; fin_cases hg <;> rfl)
    (by
      refine List.chain'_cons.mpr ⟨?_, List.chain'_singleton _⟩
      simp [calculate_topic_similarity])

/-! ## Phrase segmenter (`src/agents/phrase_grouper.py`, `parse_into_phrases`) -/

/-- A timestamped word (`{word, startS, endS}`). -/
structure AlignedWord where
  word : String
  startS : ℚ
  endS : ℚ
  deriving Repr, DecidableEq

/-- A phrase (`{text, startS, endS}`) as built by `_build_phrase`. -/
structure Phrase where
  text : String
  startS : ℚ
  endS : ℚ
  deriving Repr, DecidableEq

/-- Python `str.rstrip()` as a character list (trailing whitespace removed). -/
def pyRstrip (s : String) : List Char :=
  (s.toList.reverse.dropWhile Char.isWhitespace).reverse

/-- Python `str.strip()` as a character list (whitespace removed both ends). -/
def pyStrip (s : String) : List Char :=
  (pyRstrip s).dropWhile Char.isWhitespace

/-- `word_text.endswith(('.', '!', '?', ','))` for `word_text = word.rstrip()`
(all the suffixes are single characters, so this is a last-character test). -/
def endsWithPunct (s : String) : Bool :=
  match (pyRstrip s).getLast? with
  | some c => c = '.' ∨ c = '!' ∨ c = '?' ∨ c = ','
  | none => false

/-- The `structural_markers` list of `_split_by_structural_markers`. -/
def structuralMarkers : List String :=
  ["[Verse", "[Chorus", "[Bridge", "[Pre-Chorus", "[Outro", "[Intro"]

/-- `any(word_text.startswith(marker) for marker in structural_markers)` with
`word_text = word.strip()`. -/
def isStructuralMarker (s : String) : Bool :=
  structuralMarkers.any fun m => m.toList.isPrefixOf (pyStrip s)

/-- `_build_phrase`: space-joined texts, first word's start, last word's end. -/
def buildPhrase (ws : List AlignedWord) : Phrase :=
  { text := String.intercalate " " (ws.map (fun w => w.word))
    startS := (ws.head?.map (fun w => w.startS)).getD 0
    endS := (ws.getLast?.map (fun w => w.endS)).getD 0 }

/-- The gap-based loop of `parse_into_phrases`: accumulate words, close the
running phrase when the silence gap to the next word exceeds the threshold,
and at sequence end. -/
def gapGo (thr : ℚ) (cur : List AlignedWord) : List AlignedWord → List Phrase
  | [] => []
  | [w] => [buildPhrase (cur ++ [w])]
  | w :: w2 :: rest =>
    if thr < w2.startS - w.endS then
      buildPhrase (cur ++ [w]) :: gapGo thr [] (w2 :: rest)
    else gapGo thr (cur ++ [w]) (w2 :: rest)

/-- The loop of `_split_by_punctuation`: close a phrase at any word whose
rstripped text ends in `.`, `!`, `?` or `,`, and at sequence end. -/
def punctGo (cur : List AlignedWord) : List AlignedWord → List Phrase
  | [] => []
  | [w] => [buildPhrase (cur ++ [w])]
  | w :: w2 :: rest =>
    if endsWithPunct w.word then
      buildPhrase (cur ++ [w]) :: punctGo [] (w2 :: rest)
    else punctGo (cur ++ [w]) (w2 :: rest)

/-- The loop of `_split_by_structural_markers`: a marker word closes the
phrase accumulated so far (if non-empty) and starts the next one. -/
def structGo (cur : List AlignedWord) : List AlignedWord → List Phrase
  | [] => []
  | [w] =>
    if isStructuralMarker w.word && !cur.isEmpty then
      [buildPhrase cur, buildPhrase [w]]
    else [buildPhrase (cur ++ [w])]
  | w :: w2 :: rest =>
    if isStructuralMarker w.word && !cur.isEmpty then
      buildPhrase cur :: structGo [w] (w2 :: rest)
    else structGo (cur ++ [w]) (w2 :: rest)

/-- `parse_into_phrases`: gap-based split, then — whenever fewer than 3
phrases resulted — the punctuation-based split of the whole word list, then —
still fewer than 3 — the structural-marker split of the whole word list. -/
def parse_into_phrases (ws : List AlignedWord) (thr : ℚ) : List Phrase :=
  if ws.isEmpty then []
  else
    let p1 := gapGo thr [] ws
    let p2 := if p1.length < 3 then punctGo [] ws else p1
    if p2.length < 3 then structGo [] ws else p2

/-- **C7.** Evaluation of the Phrase Segmenter at the spec's example input
`[{"the",0.0,0.3},{"sun",0.3,0.6},{"shines",0.6,1.0},{"bright",2.0,2.4}]` with
`gapThreshold = 0.3`: the primary gap-based pass does produce the two claimed
phrases, but because that is fewer than 3 groups, the punctuation and
structural fallbacks overwrite them and the Segmenter returns a single phrase
`{"the sun shines bright", 0.0, 2.4}` — contradicting the spec's example and
the repository's own test `test_parse_aligned_words_into_phrases`. -/
theorem C7_segmenter_example_divergence :
    gapGo (3/10) []
        [⟨"the", 0, 3/10⟩, ⟨"sun", 3/10, 3/5⟩, ⟨"shines", 3/5, 1⟩,
          ⟨"bright", 2, 12/5⟩] =
      [⟨"the sun shines", 0, 1⟩, ⟨"bright", 2, 12/5⟩] ∧
    parse_into_phrases
        [⟨"the", 0, 3/10⟩, ⟨"sun", 3/10, 3/5⟩, ⟨"shines", 3/5, 1⟩,
          ⟨"bright", 2, 12/5⟩] (3/10) =
      [⟨"the sun shines bright", 0, 12/5⟩] := by
  have hgap : gapGo (3/10) []
      [⟨"the", 0, 3/10⟩, ⟨"sun", 3/10, 3/5⟩, ⟨"shines", 3/5, 1⟩,
        ⟨"bright", 2, 12/5⟩] =
      [⟨"the sun shines", 0, 1⟩, ⟨"bright", 2, 12/5⟩] := by
    norm_num [gapGo, buildPhrase]
    decide
  have e1 : endsWithPunct "the" = false := by decide
  have e2 : endsWithPunct "sun" = false := by decide
  have e3 : endsWithPunct "shines" = false := by decide
  have m1 : isStructuralMarker "the" = false := by decide
  have m2 : isStructuralMarker "sun" = false := by decide
  have m3 : isStructuralMarker "shines" = false := by decide
  have m4 : isStructuralMarker "bright" = false := by decide
  have hpunct : punctGo []
      [⟨"the", 0, 3/10⟩, ⟨"sun", 3/10, 3/5⟩, ⟨"shines", 3/5, 1⟩,
        ⟨"bright", 2, 12/5⟩] =
      [⟨"the sun shines bright", 0, 12/5⟩] := by
    norm_num [punctGo, e1, e2, e3, buildPhrase]
    all_goals decide
  have hstruct : structGo []
      [⟨"the", 0, 3/10⟩, ⟨"sun", 3/10, 3/5⟩, ⟨"shines", 3/5, 1⟩,
        ⟨"bright", 2, 12/5⟩] =
      [⟨"the sun shines bright", 0, 12/5⟩] := by
    norm_num [structGo, m1, m2, m3, m4, buildPhrase]
    all_goals decide
  refine ⟨hgap, ?_⟩
  simp only [parse_into_phrases, hgap, hpunct, hstruct]
  norm_num

theorem structGo_length (ws : List AlignedWord) (h : ws ≠ []) :
    ∀ cur, 1 ≤ (structGo cur ws).length := by
  induction ws with
  | nil => cases h rfl
  | cons w rest ih =>
    intro cur
    cases rest with
    | nil =>
      simp only [structGo]
      split <;> simp
    | cons w2 r2 =>
      simp only [structGo]
      split
      · simp
      · exact ih (by simp) (cur ++ [w])

/-- **C8.** For every non-empty word sequence with no silence gap above the
threshold, no word ending (after rstrip) in `.`, `!`, `?` or `,`, and no word
beginning a structural section marker, the Phrase Segmenter terminates (it is
a total function) and returns at least 1 phrase. -/
theorem C8_segmenter_returns_phrase (ws : List AlignedWord) (thr : ℚ)
    (hne : ws ≠ [])
    (hgaps : ws.Chain' (fun a b => b.startS - a.endS ≤ thr))
    (hpunct : ∀ w ∈ ws, endsWithPunct w.word = false)
    (hmark : ∀ w ∈ ws, isStructuralMarker w.word = false) :
    1 ≤ (parse_into_phrases ws thr).length := by
  clear hgaps hpunct hmark
  unfold parse_into_phrases
  rw [if_neg (by simpa using hne)]
  dsimp only
  split_ifs with h1 h2 h3 <;>
    first
      | exact structGo_length ws hne []
      | omega

theorem C8_segmenter_returns_phrase_witness :
    1 ≤ (parse_into_phrases [⟨"hello", 0, 1⟩, ⟨"world", 1, 2⟩] 1).length :=
  C8_segmenter_returns_phrase _ 1 (by simp)
    (by
      refine List.chain'_cons.mpr ⟨?_, List.chain'_singleton _⟩
      norm_num)
    (by intro w hw; fin_cases hw <;> decide)
    (by intro w hw; fin_cases hw <;> decide)

/-! ## Semantic matcher (`src/agents/semantic_matcher.py`) -/

/-- Python `needle in hay` on character lists (substring containment). -/
def containsSub (needle : List Char) : List Char → Bool
  | [] => needle.isEmpty
  | c :: t => needle.isPrefixOf (c :: t) || containsSub needle t

/-- Python `str.lower()` as a character list. -/
def pyLower (s : String) : List Char := s.toList.map Char.toLower

/-- A media candidate (`{url, description, enhanced_description?}`); the
embedding itself is abstracted into the base-score function below. -/
structure MediaVideo where
  url : String
  description : String
  enhanced_description : Option String
  deriving Repr, DecidableEq

/-- A phrase group as consumed by the matcher (the topic grouper's output
dict: `group_id`, `topic`, `phrases`, `key_terms`, timing). -/
structure PhraseGroup where
  group_id : Nat
  topic : String
  phrases : List Phrase
  key_terms : List String
  start_time : ℚ
  end_time : ℚ
  duration : ℚ
  deriving Repr, DecidableEq

/-- `(video.get("enhanced_description", "") + " " + video.get("description",
"")).lower()`. -/
def comboDesc (v : MediaVideo) : List Char :=
  pyLower ((v.enhanced_description.getD "") ++ " " ++ v.description)

/-- The keyword-boost loop: multiply by `keyword_boost` once per key term
whose lowercase form occurs in the combined lowered description text. -/
def keywordBoost (kb : ℚ) (terms : List String) (v : MediaVideo) : ℚ :=
  terms.foldl (fun b t => if containsSub (pyLower t) (comboDesc v) then b * kb else b) 1

/-- The per-candidate score: cosine base score (abstracted as `baseScore`)
times keyword boost, minus the diversity penalty `0.1 × count` applied when
the url occurs in the recent-use window. -/
def scoreVideo (kb baseScore : ℚ) (terms : List String) (recent : List String)
    (v : MediaVideo) : ℚ :=
  let finalScore := baseScore * keywordBoost kb terms v
  if v.url ∈ recent then finalScore - (1/10) * (recent.count v.url : ℚ) else finalScore

/-- The best-so-far fold underlying the `scores.sort(reverse=True);
scores[0]` selection: strict improvement only, so the earliest maximal
candidate is kept (Python's sort is stable). -/
def bestFold (score : MediaVideo → ℚ) (w0 : MediaVideo) (vs : List MediaVideo) :
    ℚ × MediaVideo :=
  vs.foldl (fun best v2 => if best.1 < score v2 then (score v2, v2) else best)
    (score w0, w0)

/-- `scores.sort(reverse=True); scores[0]` — the earliest candidate attaining
the maximal score. -/
def selectBestVideo (score : MediaVideo → ℚ) : List MediaVideo → Option (ℚ × MediaVideo)
  | [] => none
  | v :: vs => some (bestFold score v vs)

/-- A phrase group with the matcher's added fields; `base` carries all the
original fields unchanged (the code works on `group.copy()`). -/
structure MatchedGroup where
  base : PhraseGroup
  video_url : Option String
  video_description : Option String
  match_score : Option ℚ
  deriving Repr, DecidableEq

/-- `self.recent_videos.append(url); if len > 3: pop(0)`. -/
def windowPush (recent : List String) (url : String) : List String :=
  let r := recent ++ [url]
  if 3 < r.length then r.tail else r

/-- One iteration of the matcher's per-group loop: score the pool against
this group, take the best candidate, update the recent-use window unless the
previous matched group had the identical topic, and append the augmented
group. -/
def matchStep (kb : ℚ) (base : PhraseGroup → MediaVideo → ℚ) (pool : List MediaVideo)
    (st : List MatchedGroup × List String) (g : PhraseGroup) :
    List MatchedGroup × List String :=
  let (acc, recent) := st
  match selectBestVideo (fun v => scoreVideo kb (base g v) g.key_terms recent v) pool with
  | none => (acc ++ [⟨g, none, none, none⟩], recent)
  | some (bestScore, bestVideo) =>
    let allowReuse :=
      match acc.getLast? with
      | some m => m.base.topic == g.topic
      | none => false
    let recent2 := if allowReuse then recent else windowPush recent bestVideo.url
    (acc ++ [⟨g, some bestVideo.url, some bestVideo.description, some bestScore⟩], recent2)

/-- `SemanticMatcher.match_videos_to_groups` with a fresh matcher instance
(`recent_videos = []`); the cosine similarity of the CLIP embeddings is
abstracted as `base`. When either input is empty the inputs are returned
unaugmented. -/
def match_videos_to_groups (kb : ℚ) (base : PhraseGroup → MediaVideo → ℚ)
    (phrase_groups : List PhraseGroup) (available_media : List MediaVideo) :
    List MatchedGroup :=
  if phrase_groups.isEmpty ∨ available_media.isEmpty then
    phrase_groups.map (fun g => ⟨g, none, none, none⟩)
  else
    (phrase_groups.foldl (matchStep kb base available_media) ([], [])).1

/-- Modelled from the spec: the claim's boost exponent — the number of clip
key terms occurring case-insensitively as a substring of the candidate's
description **or** of its enhanced description (each text checked
separately, not their concatenation). -/
def claimBoostCount (terms : List String) (v : MediaVideo) : Nat :=
  terms.countP (fun t =>
    containsSub (pyLower t) (pyLower v.description) ||
    containsSub (pyLower t) (pyLower (v.enhanced_description.getD "")))

/-- Modelled from the spec: the claim's candidate score — base similarity
times `keywordBoostMultiplier ^ claimBoostCount`, minus `0.1` times the
number of occurrences of the url in the recent-use window. -/
def claimScore (kb baseScore : ℚ) (terms : List String) (recent : List String)
    (v : MediaVideo) : ℚ :=
  baseScore * kb ^ claimBoostCount terms v - (1/10) * (recent.count v.url : ℚ)

theorem boost_foldl_eq_pow (kb : ℚ) (p : String → Bool) :
    ∀ (terms : List String) (b : ℚ),
      terms.foldl (fun acc t => if p t then acc * kb else acc) b =
        b * kb ^ terms.countP p := by
  intro terms
  induction terms with
  | nil => intro b; simp
  | cons t ts ih =>
    intro b
    rw [List.foldl_cons, List.countP_cons]
    by_cases h : p t = true
    · rw [if_pos h, ih (b * kb), if_pos h, pow_succ]
      ring
    · rw [if_neg h, ih b, if_neg h]
      simp

theorem keywordBoost_eq_pow (kb : ℚ) (terms : List String) (v : MediaVideo) :
    keywordBoost kb terms v =
      kb ^ terms.countP (fun t => containsSub (pyLower t) (comboDesc v)) := by
  unfold keywordBoost
  rw [boost_foldl_eq_pow]
  ring

theorem scoreVideo_penalty_form (kb b : ℚ) (terms recent : List String) (v : MediaVideo) :
    scoreVideo kb b terms recent v =
      b * keywordBoost kb terms v - (1/10) * (recent.count v.url : ℚ) := by
  unfold scoreVideo
  split_ifs with h
  · rfl
  · rw [List.count_eq_zero.mpr h]
    simp

theorem bestFold_cons (score : MediaVideo → ℚ) (w0 v2 : MediaVideo) (vs : List MediaVideo) :
    bestFold score w0 (v2 :: vs) =
      if score w0 < score v2 then bestFold score v2 vs else bestFold score w0 vs := by
  unfold bestFold
  rw [List.foldl_cons]
  split_ifs with h <;> rfl

theorem bestFold_spec (score : MediaVideo → ℚ) :
    ∀ (vs : List MediaVideo) (w0 : MediaVideo),
      (bestFold score w0 vs).2 ∈ w0 :: vs ∧
      (bestFold score w0 vs).1 = score (bestFold score w0 vs).2 ∧
      score w0 ≤ (bestFold score w0 vs).1 ∧
      ∀ u ∈ vs, score u ≤ (bestFold score w0 vs).1 := by
  intro vs
  induction vs with
  | nil =>
    intro w0
    refine ⟨List.mem_cons_self _ _, rfl, le_refl _, ?_⟩
    intro u hu
    simp at hu
  | cons v2 vs ih =>
    intro w0
    rw [bestFold_cons]
    by_cases h : score w0 < score v2
    · rw [if_pos h]
      obtain ⟨hmem, heq, hle, hall⟩ := ih v2
      refine ⟨List.mem_cons_of_mem _ hmem, heq, le_trans (le_of_lt h) hle, ?_⟩
      intro u hu
      rcases List.mem_cons.mp hu with h' | h'
      · rw [h']; exact hle
      · exact hall u h'
    · rw [if_neg h]
      obtain ⟨hmem, heq, hle, hall⟩ := ih w0
      refine ⟨?_, heq, hle, ?_⟩
      · rcases List.mem_cons.mp hmem with h' | h'
        · rw [h']; exact List.mem_cons_self _ _
        · exact List.mem_cons_of_mem _ (List.mem_cons_of_mem _ h')
      · intro u hu
        rcases List.mem_cons.mp hu with h' | h'
        · rw [h']; exact le_trans (not_lt.mp h) hle
        · exact hall u h'

theorem selectBestVideo_spec (score : MediaVideo → ℚ) (pool : List MediaVideo)
    (hne : pool ≠ []) :
    ∃ s v, selectBestVideo score pool = some (s, v) ∧ v ∈ pool ∧ s = score v ∧
      ∀ u ∈ pool, score u ≤ s := by
  cases pool with
  | nil => cases hne rfl
  | cons v0 vs =>
    obtain ⟨hmem, heq, hle, hall⟩ := bestFold_spec score vs v0
    refine ⟨(bestFold score v0 vs).1, (bestFold score v0 vs).2, ?_, hmem, heq, ?_⟩
    · rfl
    · intro u hu
      rcases List.mem_cons.mp hu with h' | h'
      · rw [h']; exact hle
      · exact hall u h'

/-- Concrete base-similarity function for the spec's atp/motor example:
0.4 for the first candidate, 0.6 for the second. -/
def exBase (v : MediaVideo) : ℚ := if v.url = "u1" then 2/5 else 3/5

/-- **C2 (amended).** Every candidate is scored as base similarity times
`keywordBoostMultiplier` raised to the number of clip key terms occurring
case-insensitively as a substring of the *concatenation* of the candidate's
enhanced description, a space, and its description, minus `0.1` times the
number of occurrences of its url in the recent-use window; the candidate
selected is one attaining the maximal resulting score. In particular, with
boost 2.0 a candidate of base similarity 0.4 whose description contains both
"atp" and "motor" beats one of base similarity 0.6 containing neither
(1.6 > 0.6). -/
theorem C2_matcher_scoring (kb : ℚ) (base : PhraseGroup → MediaVideo → ℚ)
    (g : PhraseGroup) (recent : List String) (pool : List MediaVideo)
    (hne : pool ≠ []) :
    (∀ (v : MediaVideo) (b : ℚ),
      scoreVideo kb b g.key_terms recent v =
        b * kb ^ (g.key_terms.countP fun t => containsSub (pyLower t) (comboDesc v))
          - (1/10) * (recent.count v.url : ℚ)) ∧
    (∃ s v, selectBestVideo (fun v => scoreVideo kb (base g v) g.key_terms recent v) pool
        = some (s, v) ∧ v ∈ pool ∧
        s = scoreVideo kb (base g v) g.key_terms recent v ∧
        ∀ u ∈ pool, scoreVideo kb (base g u) g.key_terms recent u ≤ s) ∧
    selectBestVideo (fun v => scoreVideo 2 (exBase v) ["atp", "motor"] [] v)
        [⟨"u1", "the atp motor spins", none⟩, ⟨"u2", "a city skyline", none⟩]
      = some (8/5, ⟨"u1", "the atp motor spins", none⟩) := by
  refine ⟨?_, selectBestVideo_spec _ pool hne, ?_⟩
  · intro v b
    rw [scoreVideo_penalty_form, keywordBoost_eq_pow]
  · have c1 : containsSub (pyLower "atp")
        (comboDesc ⟨"u1", "the atp motor spins", none⟩) = true := by decide
    have c2 : containsSub (pyLower "motor")
        (comboDesc ⟨"u1", "the atp motor spins", none⟩) = true := by decide
    have c3 : containsSub (pyLower "atp")
        (comboDesc ⟨"u2", "a city skyline", none⟩) = false := by decide
    have c4 : containsSub (pyLower "motor")
        (comboDesc ⟨"u2", "a city skyline", none⟩) = false := by decide
    have sA : scoreVideo 2 (exBase ⟨"u1", "the atp motor spins", none⟩) ["atp", "motor"]
        [] ⟨"u1", "the atp motor spins", none⟩ = 8/5 := by
      rw [show exBase ⟨"u1", "the atp motor spins", none⟩ = 2/5 from rfl,
        scoreVideo_penalty_form]
      simp [keywordBoost, c1, c2]
      norm_num
    have sB : scoreVideo 2 (exBase ⟨"u2", "a city skyline", none⟩) ["atp", "motor"]
        [] ⟨"u2", "a city skyline", none⟩ = 3/5 := by
      rw [show exBase ⟨"u2", "a city skyline", none⟩ = 3/5 from rfl,
        scoreVideo_penalty_form]
      simp [keywordBoost, c3, c4]
    simp only [selectBestVideo, bestFold, List.foldl_cons, List.foldl_nil]
    rw [sA, sB, if_neg (by norm_num)]

theorem C2_matcher_scoring_witness :
    ∃ s v, selectBestVideo (fun v => scoreVideo 2 0 [] [] v) [⟨"u", "d", none⟩]
        = some (s, v) ∧ v ∈ [(⟨"u", "d", none⟩ : MediaVideo)] ∧
        s = scoreVideo 2 0 [] [] ⟨"u", "d", none⟩ ∧
        ∀ u ∈ [(⟨"u", "d", none⟩ : MediaVideo)], scoreVideo 2 0 [] [] u ≤ s :=
  (C2_matcher_scoring 2 (fun _ _ => 0) ⟨1, "t", [], [], 0, 0, 0⟩ [] _ (by simp)).2.1

/-- Concrete base-similarity function for the boundary-spanning
counterexample: 0.5 for the first candidate, 0.6 for the second. -/
def exBase2 (v : MediaVideo) : ℚ := if v.url = "A" then 1/2 else 3/5

/-- **C2 counterexample.** The code boosts on substrings of the
*concatenation* `enhanced_description + " " + description`, not of either
text alone: for key term `"a b"`, a candidate with enhanced description
`"a"` and description `"b"` (base 0.5) is boosted to 1.0 and selected over a
candidate scoring 0.6, while under the claim's reading (substring of the
description or of the enhanced description) its exponent is 0, its score
stays 0.5 and the other candidate (0.6) would have to win. -/
theorem C2_counterexample :
    selectBestVideo (fun v => scoreVideo 2 (exBase2 v) ["a b"] [] v)
        [⟨"A", "b", some "a"⟩, ⟨"B", "zzz", none⟩] =
      some (1, ⟨"A", "b", some "a"⟩) ∧
    claimScore 2 (exBase2 ⟨"A", "b", some "a"⟩) ["a b"] [] ⟨"A", "b", some "a"⟩
      = 1/2 ∧
    claimScore 2 (exBase2 ⟨"B", "zzz", none⟩) ["a b"] [] ⟨"B", "zzz", none⟩
      = 3/5 ∧
    ((1 : ℚ)/2 < 3/5) := by
  have c1 : containsSub (pyLower "a b") (comboDesc ⟨"A", "b", some "a"⟩) = true := by
    decide
  have c2 : containsSub (pyLower "a b") (comboDesc ⟨"B", "zzz", none⟩) = false := by
    decide
  have d1 : claimBoostCount ["a b"] ⟨"A", "b", some "a"⟩ = 0 := by decide
  have d2 : claimBoostCount ["a b"] ⟨"B", "zzz", none⟩ = 0 := by decide
  have sA : scoreVideo 2 (exBase2 ⟨"A", "b", some "a"⟩) ["a b"] [] ⟨"A", "b", some "a"⟩
      = 1 := by
    rw [show exBase2 ⟨"A", "b", some "a"⟩ = 1/2 from rfl, scoreVideo_penalty_form]
    simp [keywordBoost, c1]
    try norm_num
  have sB : scoreVideo 2 (exBase2 ⟨"B", "zzz", none⟩) ["a b"] [] ⟨"B", "zzz", none⟩
      = 3/5 := by
    rw [show exBase2 ⟨"B", "zzz", none⟩ = 3/5 from rfl, scoreVideo_penalty_form]
    simp [keywordBoost, c2]
  refine ⟨?_, ?_, ?_, by norm_num⟩
  · simp only [selectBestVideo, bestFold, List.foldl_cons, List.foldl_nil]
    rw [sA, sB, if_neg (by norm_num)]
  · rw [show exBase2 ⟨"A", "b", some "a"⟩ = 1/2 from rfl]
    unfold claimScore
    rw [d1]
    norm_num
  · rw [show exBase2 ⟨"B", "zzz", none⟩ = 3/5 from rfl]
    unfold claimScore
    rw [d2]
    norm_num

theorem matchStep_cons_pool (kb : ℚ) (base : PhraseGroup → MediaVideo → ℚ)
    (v0 : MediaVideo) (vs : List MediaVideo)
    (acc : List MatchedGroup) (recent : List String) (g : PhraseGroup) :
    ∃ (u d : String) (s : ℚ) (recent2 : List String),
      matchStep kb base (v0 :: vs) (acc, recent) g =
        (acc ++ [⟨g, some u, some d, some s⟩], recent2) := by
  unfold matchStep
  simp only [selectBestVideo]
  exact ⟨_, _, _, _, rfl⟩

theorem matchFold_spec (kb : ℚ) (base : PhraseGroup → MediaVideo → ℚ)
    (v0 : MediaVideo) (vs : List MediaVideo) :
    ∀ (gs : List PhraseGroup) (acc : List MatchedGroup) (recent : List String),
      ((gs.foldl (matchStep kb base (v0 :: vs)) (acc, recent)).1).map (fun m => m.base)
          = acc.map (fun m => m.base) ++ gs ∧
      ∀ m ∈ (gs.foldl (matchStep kb base (v0 :: vs)) (acc, recent)).1,
        m ∈ acc ∨ (m.video_url.isSome ∧ m.video_description.isSome ∧
          m.match_score.isSome) := by
  intro gs
  induction gs with
  | nil =>
    intro acc recent
    refine ⟨by simp, ?_⟩
    intro m hm
    exact Or.inl hm
  | cons g gs ih =>
    intro acc recent
    rw [List.foldl_cons]
    obtain ⟨u, d, s, r2, hstep⟩ := matchStep_cons_pool kb base v0 vs acc recent g
    rw [hstep]
    obtain ⟨ih1, ih2⟩ := ih (acc ++ [⟨g, some u, some d, some s⟩]) r2
    constructor
    · rw [ih1]; simp
    · intro m hm
      rcases ih2 m hm with h | h
      · rcases List.mem_append.mp h with h' | h'
        · exact Or.inl h'
        · rcases List.mem_singleton.mp h' with rfl
          exact Or.inr ⟨rfl, rfl, rfl⟩
      · exact Or.inr h

/-- **C10.** For every non-empty group list and non-empty media pool,
`match_videos_to_groups` returns exactly one output entry per input group in
input order — no group is dropped whatever the scores are, since `base` is
universally quantified — and each output carries its input group unchanged
(field `base`), augmented with a present `video_url`, `video_description`
and `match_score`; the model is purely functional, so the input list is
unchanged. -/
theorem C10_matcher_frame (kb : ℚ) (base : PhraseGroup → MediaVideo → ℚ)
    (groups : List PhraseGroup) (pool : List MediaVideo)
    (hg : groups ≠ []) (hp : pool ≠ []) :
    (match_videos_to_groups kb base groups pool).map (fun m => m.base) = groups ∧
    (match_videos_to_groups kb base groups pool).length = groups.length ∧
    ∀ m ∈ match_videos_to_groups kb base groups pool,
      m.video_url.isSome ∧ m.video_description.isSome ∧ m.match_score.isSome := by
  cases pool with
  | nil => cases hp rfl
  | cons v0 vs =>
    have hguard : ¬(groups.isEmpty = true ∨ (v0 :: vs).isEmpty = true) := by
      simp [hg]
    unfold match_videos_to_groups
    rw [if_neg hguard]
    obtain ⟨h1, h2⟩ := matchFold_spec kb base v0 vs groups [] []
    refine ⟨by simpa using h1, ?_, ?_⟩
    · have hlen := congrArg List.length h1
      simpa using hlen
    · intro m hm
      rcases h2 m hm with h | h
      · simp at h
      · exact h

theorem C10_matcher_frame_witness :
    (match_videos_to_groups 2 (fun _ _ => 0) [⟨1, "t", [], [], 0, 0, 0⟩]
        [⟨"u", "d", none⟩]).map (fun m => m.base) = [⟨1, "t", [], [], 0, 0, 0⟩] ∧
    (match_videos_to_groups 2 (fun _ _ => 0) [⟨1, "t", [], [], 0, 0, 0⟩]
        [⟨"u", "d", none⟩]).length = 1 ∧
    ∀ m ∈ match_videos_to_groups 2 (fun _ _ => 0) [⟨1, "t", [], [], 0, 0, 0⟩]
        [⟨"u", "d", none⟩],
      m.video_url.isSome ∧ m.video_description.isSome ∧ m.match_score.isSome :=
  C10_matcher_frame 2 (fun _ _ => 0) [⟨1, "t", [], [], 0, 0, 0⟩] [⟨"u", "d", none⟩]
    (by simp) (by simp)

/-! ## Topic grouper (`src/agents/phrase_grouper.py`, `group_phrases_by_topic`) -/

/-- One entry of the oracle's parsed JSON array
(`{"phrase_indices": [...], "topic": ..., "key_terms": [...]}`). -/
structure RawGroup where
  phrase_indices : List Nat
  topic : String
  key_terms : List String
  deriving Repr, DecidableEq

/-- Outcome of the external grouping oracle call: `failure` covers a raised
subprocess error, a timeout and a non-zero return code (all caught by the
`except` handler); `success text parsed` is a zero-return-code call with
stripped stdout `text`, where `parsed` abstracts `json.loads` of the
bracket-delimited slice (`none` when it raises). -/
inductive OracleResult where
  | failure : OracleResult
  | success (text : String) (parsed : Option (List RawGroup)) : OracleResult
  deriving Repr, DecidableEq

/-- The `except` fallback: one group per phrase, topic the first 30
characters of the phrase text, empty key terms, ids numbered from `n`. -/
def fallbackGroups (n : Nat) : List Phrase → List PhraseGroup
  | [] => []
  | p :: ps =>
    { group_id := n
      topic := String.mk (p.text.toList.take 30)
      phrases := [p]
      key_terms := []
      start_time := p.startS
      end_time := p.endS
      duration := p.endS - p.startS } :: fallbackGroups (n + 1) ps

/-- `group_phrases = [phrases[i] for i in g["phrase_indices"]]` — `none`
models the `IndexError` raised on an out-of-range index. -/
def lookupPhrases (phrases : List Phrase) (idxs : List Nat) : Option (List Phrase) :=
  idxs.mapM (fun i => phrases.get? i)

/-- The group-building loop over the parsed oracle data; `none` models a
raised `IndexError` (bad index, or `group_phrases[0]` on an empty list),
which the `except` handler turns into the fallback. Ids number from `n`
(`len(groups) + 1`). -/
def buildOracleGroups (phrases : List Phrase) (n : Nat) :
    List RawGroup → Option (List PhraseGroup)
  | [] => some []
  | r :: rs =>
    match lookupPhrases phrases r.phrase_indices with
    | none => none
    | some gps =>
      match gps.head?, gps.getLast? with
      | some h, some l =>
        match buildOracleGroups phrases (n + 1) rs with
        | none => none
        | some rest =>
          some ({ group_id := n
                  topic := r.topic
                  phrases := gps
                  key_terms := r.key_terms
                  start_time := h.startS
                  end_time := l.endS
                  duration := l.endS - h.startS } :: rest)
      | _, _ => none

/-- `PhraseGrouper.group_phrases_by_topic`: empty input returns `some []`;
an oracle failure or a parse/build exception degrades to the identity
fallback; but a zero-return-code output containing no `[` or no `]` falls
off the end of the `try` block and the Python function returns `None`
(modelled as `none`). -/
def group_phrases_by_topic (phrases : List Phrase) (oracle : OracleResult) :
    Option (List PhraseGroup) :=
  if phrases.isEmpty then some []
  else
    match oracle with
    | .failure => some (fallbackGroups 1 phrases)
    | .success text parsed =>
      if text.toList.contains '[' && text.toList.contains ']' then
        match parsed with
        | none => some (fallbackGroups 1 phrases)
        | some raws =>
          match buildOracleGroups phrases 1 raws with
          | none => some (fallbackGroups 1 phrases)
          | some gs => some gs
      else none

/-- **C6.** The claim says the Topic Grouper returns the identity mapping
whenever the oracle is unavailable, times out, or returns output from which
no group list can be parsed, and never returns a non-list result. The
exception paths (oracle failure/timeout/parse error) do fall back as
claimed, but a successful oracle call whose output contains no brackets
falls off the `try` block and the function returns Python `None` — a
non-list result — instead of the identity mapping, contradicting the claim,
the function's own docstring (`Returns: List of phrase groups`) and the
spec's "never fails the pipeline outright". -/
theorem C6_grouper_none_on_bracketless :
    group_phrases_by_topic [⟨"hello", 0, 1⟩] (.success "no groups found" none) = none ∧
    group_phrases_by_topic [⟨"hello", 0, 1⟩] .failure =
      some (fallbackGroups 1 [⟨"hello", 0, 1⟩]) ∧
    group_phrases_by_topic [⟨"hello", 0, 1⟩] (.success "well [not json]" none) =
      some (fallbackGroups 1 [⟨"hello", 0, 1⟩]) := by
  refine ⟨rfl, rfl, rfl⟩

/-! ## Shot list assembler (`src/agents/build_format_media_plan.py`,
`build_synchronized_shot_list`) -/

/-- A matched clip dict (`local_path`, `media_type`, `media_url`,
`description`, `source`, `transition`, `priority`). -/
structure MClip where
  local_path : String
  media_type : String
  media_url : String
  description : String
  source : String
  transition : String
  priority : String
  deriving Repr, DecidableEq

/-- A matched phrase group as consumed by the assembler (`get_phrase_time`
reads one start and one end whichever key format is present; `text` covers
the `text`/`topic` fallback). -/
structure MGroup where
  start_time : ℚ
  end_time : ℚ
  text : String
  group_id : Option Nat
  match_score : ℚ
  matched_clip : Option MClip
  deriving Repr, DecidableEq

/-- A shot of the synchronized shot list. -/
structure Shot where
  shot_number : Nat
  local_path : String
  media_type : String
  media_url : String
  description : String
  lyrics_match : String
  source : String
  transition : String
  priority : String
  start_time : ℚ
  end_time : ℚ
  duration : ℚ
  phrase_group_id : Option Nat
  absolute_start : ℚ
  absolute_end : ℚ
  match_score : ℚ
  deriving Repr, DecidableEq

/-- The shot built for one matched group: lyric times clipped to the window
and re-based to be window-relative. -/
def mkShot (num : Nat) (segStart segEnd : ℚ) (g : MGroup) (clip : MClip) : Shot :=
  let lyricStart := max g.start_time segStart
  let lyricEnd := min g.end_time segEnd
  { shot_number := num
    local_path := clip.local_path
    media_type := clip.media_type
    media_url := clip.media_url
    description := clip.description
    lyrics_match := g.text
    source := clip.source
    transition := clip.transition
    priority := clip.priority
    start_time := lyricStart - segStart
    end_time := lyricEnd - segStart
    duration := lyricEnd - lyricStart
    phrase_group_id := g.group_id
    absolute_start := lyricStart
    absolute_end := lyricEnd
    match_score := g.match_score }

/-- The window filter: groups overlapping `[segStart, segEnd)`. -/
def segmentGroups (mgs : List MGroup) (segStart segEnd : ℚ) : List MGroup :=
  mgs.filter (fun g => g.start_time < segEnd && segStart < g.end_time)

/-- The shot-building loop: groups without a matched clip are skipped;
`shot_number` counts the shots built so far plus one. -/
def shotsLoop (segStart segEnd : ℚ) (acc : List Shot) : List MGroup → List Shot
  | [] => acc
  | g :: gs =>
    match g.matched_clip with
    | none => shotsLoop segStart segEnd acc gs
    | some clip =>
      shotsLoop segStart segEnd (acc ++ [mkShot (acc.length + 1) segStart segEnd g clip]) gs

/-- The synthesized filler shot for an instrumental intro gap. -/
def fillerShot (segStart gap : ℚ) (fc : MClip) : Shot :=
  { shot_number := 0
    local_path := fc.local_path
    media_type := fc.media_type
    media_url := fc.media_url
    description := fc.description ++ " (instrumental intro)"
    lyrics_match := "[Instrumental]"
    source := fc.source
    transition := "fade"
    priority := "normal"
    start_time := 0
    end_time := gap
    duration := gap
    phrase_group_id := none
    absolute_start := segStart
    absolute_end := segStart + gap
    match_score := 0 }

/-- `for i, shot in enumerate(shots): shot["shot_number"] = i + 1`. -/
def renumberShots (n : Nat) : List Shot → List Shot
  | [] => []
  | s :: ss => { s with shot_number := n } :: renumberShots (n + 1) ss

/-- The gap-filling tail of `build_synchronized_shot_list`: when the first
shot starts later than 0.5 s, insert a filler shot reusing the first
available matched clip and renumber from 1. -/
def assembleShots (sg : List MGroup) (segStart : ℚ) (shots : List Shot) : List Shot :=
  match shots with
  | [] => []
  | s0 :: _ =>
    if 1/2 < s0.start_time then
      match (sg.filterMap (fun g => g.matched_clip)).head? with
      | none => shots
      | some fc => renumberShots 1 (fillerShot segStart s0.start_time fc :: shots)
    else shots

/-- `build_synchronized_shot_list`: filter groups to the window, build
clipped window-relative shots, then apply the gap-filling step. -/
def build_synchronized_shot_list (mgs : List MGroup) (segStart segEnd : ℚ) : List Shot :=
  let sg := segmentGroups mgs segStart segEnd
  assembleShots sg segStart (shotsLoop segStart segEnd [] sg)

/-- The window-relative (start, end) pair of a shot. -/
def timePair (s : Shot) : ℚ × ℚ := (s.start_time, s.end_time)

theorem shotsLoop_times (segStart segEnd : ℚ) :
    ∀ (gs : List MGroup) (acc : List Shot),
      (∀ g ∈ gs, g.matched_clip.isSome) →
      (shotsLoop segStart segEnd acc gs).map timePair =
        acc.map timePair ++ gs.map (fun g =>
          (max g.start_time segStart - segStart, min g.end_time segEnd - segStart)) := by
  intro gs
  induction gs with
  | nil => intro acc _; simp [shotsLoop]
  | cons g gs ih =>
    intro acc hall
    have hg := hall g (List.mem_cons_self _ _)
    cases hc : g.matched_clip with
    | none => rw [hc] at hg; simp at hg
    | some clip =>
      simp only [shotsLoop, hc]
      rw [ih (acc ++ [mkShot (acc.length + 1) segStart segEnd g clip])
        (fun g' hg' => hall g' (List.mem_cons_of_mem _ hg'))]
      simp [mkShot, timePair]

theorem renumberShots_times : ∀ (n : Nat) (l : List Shot),
    (renumberShots n l).map timePair = l.map timePair := by
  intro n l
  induction l generalizing n with
  | nil => rfl
  | cons s ss ih => simp [renumberShots, timePair, ih]

/-- **C4 counterexample.** For two matched groups `[0,2]` and `[5,7]` in the
window `[0,10]`, the assembler emits shots `(0,2)` and `(5,7)`: interior
gaps are never filled, so `shots[0].endTime = 2 ≠ 5 = shots[1].startTime`,
refuting the adjacency invariant as claimed. -/
theorem C4_counterexample :
    ((build_synchronized_shot_list
        [⟨0, 2, "t1", some 0, 0, some ⟨"p", "video", "u", "d", "s", "crossfade", "normal"⟩⟩,
          ⟨5, 7, "t2", some 1, 0, some ⟨"p", "video", "u", "d", "s", "crossfade", "normal"⟩⟩]
        0 10).map timePair) = [(0, 2), (5, 7)] ∧
    ¬ ((2 : ℚ) = 5) := by
  constructor
  · have hsg : segmentGroups
        [⟨0, 2, "t1", some 0, 0, some ⟨"p", "video", "u", "d", "s", "crossfade", "normal"⟩⟩,
          ⟨5, 7, "t2", some 1, 0, some ⟨"p", "video", "u", "d", "s", "crossfade", "normal"⟩⟩]
        0 10 =
        [⟨0, 2, "t1", some 0, 0, some ⟨"p", "video", "u", "d", "s", "crossfade", "normal"⟩⟩,
          ⟨5, 7, "t2", some 1, 0, some ⟨"p", "video", "u", "d", "s", "crossfade", "normal"⟩⟩] := by
      simp only [segmentGroups, List.filter]
      norm_num
    rw [build_synchronized_shot_list, hsg]
    have hstart : (mkShot 1 0 10
        ⟨0, 2, "t1", some 0, 0, some ⟨"p", "video", "u", "d", "s", "crossfade", "normal"⟩⟩
        ⟨"p", "video", "u", "d", "s", "crossfade", "normal"⟩).start_time = 0 := by
      simp [mkShot]
    show (assembleShots _ 0
        [mkShot 1 0 10 _ _, mkShot 2 0 10 _ _]).map timePair = _
    rw [assembleShots, if_neg (by rw [hstart]; norm_num)]
    simp [mkShot, timePair]
    norm_num
  · norm_num

theorem assembleShots_spec (sg : List MGroup) (segStart segEnd : ℚ) (shots : List Shot)
    (hclip : ∀ g ∈ sg, g.matched_clip.isSome)
    (htimes : shots.map timePair = sg.map (fun g =>
      (max g.start_time segStart - segStart, min g.end_time segEnd - segStart)))
    (hchain : sg.Chain' (fun a b => min a.end_time segEnd = max b.start_time segStart)) :
    (assembleShots sg segStart shots).Chain' (fun s t => s.end_time = t.start_time) ∧
    ∀ s0, (assembleShots sg segStart shots).head? = some s0 →
      0 ≤ s0.start_time ∧ s0.start_time ≤ 1/2 := by
  have chainShots : shots.Chain' (fun s t => s.end_time = t.start_time) := by
    have h1 : List.Chain' (fun p q : ℚ × ℚ => p.2 = q.1) (shots.map timePair) := by
      rw [htimes, List.chain'_map]
      exact hchain.imp (fun a b h => congrArg (fun x => x - segStart) h)
    exact (List.chain'_map timePair).mp h1
  cases shots with
  | nil =>
    refine ⟨by simp [assembleShots], ?_⟩
    intro s0 h
    simp [assembleShots] at h
  | cons s0 rest =>
    cases sg with
    | nil => simp at htimes
    | cons g0 sg2 =>
      have hhead : timePair s0 =
          (max g0.start_time segStart - segStart, min g0.end_time segEnd - segStart) := by
        have := congrArg List.head? htimes
        simpa using this
      have hs0start : s0.start_time = max g0.start_time segStart - segStart :=
        congrArg Prod.fst hhead
      have h0le : 0 ≤ s0.start_time := by
        rw [hs0start]
        have := le_max_right g0.start_time segStart
        linarith
      by_cases hgap : 1/2 < s0.start_time
      · have hg0clip := hclip g0 (List.mem_cons_self _ _)
        cases hc0 : g0.matched_clip with
        | none => rw [hc0] at hg0clip; simp at hg0clip
        | some c0 =>
          have hfm : ((g0 :: sg2).filterMap (fun g => g.matched_clip)).head? = some c0 := by
            simp [List.filterMap_cons, hc0]
          have hres : assembleShots (g0 :: sg2) segStart (s0 :: rest) =
              renumberShots 1 (fillerShot segStart s0.start_time c0 :: s0 :: rest) := by
            simp only [assembleShots, if_pos hgap, hfm]
          rw [hres]
          constructor
          · have h1 : List.Chain' (fun p q : ℚ × ℚ => p.2 = q.1)
                ((renumberShots 1
                  (fillerShot segStart s0.start_time c0 :: s0 :: rest)).map timePair) := by
              rw [renumberShots_times]
              rw [List.map_cons]
              refine List.chain'_cons.mpr ⟨?_, ?_⟩
              · show (fillerShot segStart s0.start_time c0).end_time = (timePair s0).1
                simp [fillerShot, timePair]
              · rw [← List.map_cons]
                exact (List.chain'_map timePair).mpr chainShots
            exact (List.chain'_map timePair).mp h1
          · intro s1 hh
            simp only [renumberShots, List.head?_cons, Option.some.injEq] at hh
            rw [← hh]
            constructor <;> simp [fillerShot]
      · have hres : assembleShots (g0 :: sg2) segStart (s0 :: rest) = s0 :: rest := by
          simp only [assembleShots, if_neg hgap]
        rw [hres]
        refine ⟨chainShots, ?_⟩
        intro s1 hh
        simp only [List.head?_cons, Option.some.injEq] at hh
        subst hh
        exact ⟨h0le, not_lt.mp hgap⟩

/-- **C4 (amended).** Whenever every window-overlapping group carries a
matched clip and those groups, clipped to the window, are contiguous
(each group's clipped end equals the next group's clipped start), the
returned shots satisfy `shots[i].endTime = shots[i+1].startTime` for all
adjacent i; and the first shot always starts within `[0, 0.5]` of the
window start — exactly 0 whenever the pre-filler first shot started later
than 0.5 s (filler inserted), and otherwise at its clipped lyric start,
which can be as large as 0.5. -/
theorem C4_shot_list_contiguity (mgs : List MGroup) (segStart segEnd : ℚ)
    (hclip : ∀ g ∈ segmentGroups mgs segStart segEnd, g.matched_clip.isSome)
    (hchain : (segmentGroups mgs segStart segEnd).Chain'
      (fun a b => min a.end_time segEnd = max b.start_time segStart)) :
    (build_synchronized_shot_list mgs segStart segEnd).Chain'
      (fun s t => s.end_time = t.start_time) ∧
    ∀ s0, (build_synchronized_shot_list mgs segStart segEnd).head? = some s0 →
      0 ≤ s0.start_time ∧ s0.start_time ≤ 1/2 := by
  have htimes := shotsLoop_times segStart segEnd (segmentGroups mgs segStart segEnd) [] hclip
  simp only [List.map_nil, List.nil_append] at htimes
  exact assembleShots_spec (segmentGroups mgs segStart segEnd) segStart segEnd
    (shotsLoop segStart segEnd [] (segmentGroups mgs segStart segEnd))
    hclip htimes hchain

theorem C4_shot_list_contiguity_witness :
    (build_synchronized_shot_list
        [⟨0, 2, "t1", some 0, 0, some ⟨"p", "v", "u", "d", "s", "crossfade", "normal"⟩⟩,
          ⟨2, 7, "t2", some 1, 0, some ⟨"p", "v", "u", "d", "s", "crossfade", "normal"⟩⟩]
        0 10).Chain' (fun s t => s.end_time = t.start_time) ∧
    ∀ s0, (build_synchronized_shot_list
        [⟨0, 2, "t1", some 0, 0, some ⟨"p", "v", "u", "d", "s", "crossfade", "normal"⟩⟩,
          ⟨2, 7, "t2", some 1, 0, some ⟨"p", "v", "u", "d", "s", "crossfade", "normal"⟩⟩]
        0 10).head? = some s0 →
      0 ≤ s0.start_time ∧ s0.start_time ≤ 1/2 := by
  have hsg : segmentGroups
      [⟨0, 2, "t1", some 0, 0, some ⟨"p", "v", "u", "d", "s", "crossfade", "normal"⟩⟩,
        ⟨2, 7, "t2", some 1, 0, some ⟨"p", "v", "u", "d", "s", "crossfade", "normal"⟩⟩]
      0 10 =
      [⟨0, 2, "t1", some 0, 0, some ⟨"p", "v", "u", "d", "s", "crossfade", "normal"⟩⟩,
        ⟨2, 7, "t2", some 1, 0, some ⟨"p", "v", "u", "d", "s", "crossfade", "normal"⟩⟩] := by
    simp only [segmentGroups, List.filter]
    norm_num
  refine C4_shot_list_contiguity _ 0 10 ?_ ?_
  · rw [hsg]
    intro g hg
    fin_cases hg <;> rfl
  · rw [hsg]
    refine List.chain'_cons.mpr ⟨?_, List.chain'_singleton _⟩
    show min (2 : ℚ) 10 = max (2 : ℚ) 0
    rw [min_eq_left (by norm_num : (2:ℚ) ≤ 10), max_eq_left (by norm_num : (0:ℚ) ≤ 2)]

/-! ## Visual ranker (`src/agents/3_rank_visuals.py`) -/

/-- A media candidate of the ranker; its thumbnail image and embedding are
abstracted into the `fetchOk`, `rel` and `sim` parameters below. -/
structure RCand where
  url : String
  deriving Repr, DecidableEq

/-- A ranked candidate (`rank` and `visual_score` fields added by the
ranker; `none` when the code path returns candidates unranked). -/
structure RankedCand where
  cand : RCand
  rank : Option Nat
  visual_score : Option ℚ
  deriving Repr, DecidableEq

/-- `max(similarities)` over the already-selected candidates, `0` when none
are selected yet. -/
def maxSimTo (sim : RCand → RCand → ℚ) (c : RCand) : List RCand → ℚ
  | [] => 0
  | s :: ss => ss.foldl (fun m x => max m (sim c x)) (sim c s)

/-- The MMR score of a candidate for one fact:
`λ · relevance − (1 − λ) · max_similarity`. -/
def mmrScore (lam : ℚ) (rel : RCand → String → ℚ) (sim : RCand → RCand → ℚ)
    (selected : List RCand) (f : String) (c : RCand) : ℚ :=
  lam * rel c f - (1 - lam) * maxSimTo sim c selected

/-- The inner `for idx in remaining_indices` loop: strict improvement over
`best_score = -inf`, so the earliest maximal candidate wins. -/
def bestFoldC (score : RCand → ℚ) (w0 : RCand) (vs : List RCand) : ℚ × RCand :=
  vs.foldl (fun best x => if best.1 < score x then (score x, x) else best)
    (score w0, w0)

/-- The candidate picked in one MMR round (`none` when none remain). -/
def pickBest (score : RCand → ℚ) : List RCand → Option RCand
  | [] => none
  | c :: cs => some (bestFoldC score c cs).2

/-- The per-fact selection rounds (`for fact_idx in range(min(...))`): move
the picked candidate from `remaining` to `selected`. -/
def mmrRounds (lam : ℚ) (rel : RCand → String → ℚ) (sim : RCand → RCand → ℚ) :
    List String → List RCand × List RCand → List RCand × List RCand
  | [], st => st
  | f :: fs, (selected, remaining) =>
    match pickBest (mmrScore lam rel sim selected f) remaining with
    | none => mmrRounds lam rel sim fs (selected, remaining)
    | some best => mmrRounds lam rel sim fs (selected ++ [best], remaining.erase best)

/-- `np.mean([cos(c, f) for f in facts])`. -/
def meanRel (rel : RCand → String → ℚ) (facts : List String) (c : RCand) : ℚ :=
  (facts.map (rel c)).sum / (facts.length : ℚ)

/-- The `for rank, idx in enumerate(selected_indices)` loop: rank `n`, `n+1`,
…, each scored by mean relevance across all facts. -/
def rankWith (rel : RCand → String → ℚ) (facts : List String) :
    Nat → List RCand → List RankedCand
  | _, [] => []
  | n, c :: cs => ⟨c, some n, some (meanRel rel facts c)⟩ :: rankWith rel facts (n + 1) cs

/-- `VisualRanker._calculate_mmr_scores`: one selection round per fact
(capped at the candidate count), then the remaining candidates in their
original order, all ranked from 1 with mean-relevance scores. -/
def calculate_mmr_scores (lam : ℚ) (rel : RCand → String → ℚ) (sim : RCand → RCand → ℚ)
    (facts : List String) (candidates : List RCand) : List RankedCand :=
  let st := mmrRounds lam rel sim (facts.take candidates.length) ([], candidates)
  rankWith rel facts 1 (st.1 ++ st.2)

/-- The `for candidate in failed_candidates` loop of `rank_media`: rank
`len(ranked) + 1` as the list grows, score 0. -/
def appendFailed : Nat → List RCand → List RankedCand
  | _, [] => []
  | n, c :: cs => ⟨c, some (n + 1), some 0⟩ :: appendFailed (n + 1) cs

/-- `VisualRanker.rank_media`: empty pool → `[]`; no key facts, or no
thumbnail fetched at all → the candidates returned unranked; otherwise MMR
over the fetchable candidates followed by the failed ones with score 0. The
parallel thumbnail download is modelled as the order-preserving partition
induced by `fetchOk`. -/
def rank_media (lam : ℚ) (rel : RCand → String → ℚ) (sim : RCand → RCand → ℚ)
    (fetchOk : RCand → Bool) (candidates : List RCand) (facts : List String) :
    List RankedCand :=
  if candidates.isEmpty then []
  else if facts.isEmpty then candidates.map (fun c => ⟨c, none, none⟩)
  else
    let valid := candidates.filter fetchOk
    let failed := candidates.filter (fun c => !fetchOk c)
    if valid.isEmpty then candidates.map (fun c => ⟨c, none, none⟩)
    else
      let ranked := calculate_mmr_scores lam rel sim facts valid
      ranked ++ appendFailed ranked.length failed

/-- Modelled from the spec: each round picks the **first** not-yet-selected
candidate attaining the maximal MMR score (ties broken in favor of the
first candidate in iteration order). -/
def specPickFirstMax (score : RCand → ℚ) (remaining : List RCand) : Option RCand :=
  remaining.find? (fun c => decide (∀ u ∈ remaining, score u ≤ score c))

/-- Modelled from the spec: the selection rounds driven by
`specPickFirstMax`. -/
def specRounds (lam : ℚ) (rel : RCand → String → ℚ) (sim : RCand → RCand → ℚ) :
    List String → List RCand × List RCand → List RCand × List RCand
  | [], st => st
  | f :: fs, (selected, remaining) =>
    match specPickFirstMax (mmrScore lam rel sim selected f) remaining with
    | none => specRounds lam rel sim fs (selected, remaining)
    | some best => specRounds lam rel sim fs (selected ++ [best], remaining.erase best)

/-- Modelled from the spec: the overall candidate order — one first-maximum
pick per key fact, then the remaining candidates in their original order. -/
def specOrder (lam : ℚ) (rel : RCand → String → ℚ) (sim : RCand → RCand → ℚ)
    (facts : List String) (valid : List RCand) : List RCand :=
  let st := specRounds lam rel sim (facts.take valid.length) ([], valid)
  st.1 ++ st.2

/-- The expected rank column: `some n, some (n+1), …`, `k` entries. -/
def ranksFrom (n : Nat) : Nat → List (Option Nat)
  | 0 => []
  | k + 1 => some n :: ranksFrom (n + 1) k

theorem bestFoldC_cons (score : RCand → ℚ) (w0 v2 : RCand) (vs : List RCand) :
    bestFoldC score w0 (v2 :: vs) =
      if score w0 < score v2 then bestFoldC score v2 vs else bestFoldC score w0 vs := by
  unfold bestFoldC
  rw [List.foldl_cons]
  split_ifs with h <;> rfl

theorem bestFoldC_spec (score : RCand → ℚ) :
    ∀ (vs : List RCand) (w0 : RCand),
      ∃ l1 l2,
        w0 :: vs = l1 ++ (bestFoldC score w0 vs).2 :: l2 ∧
        (bestFoldC score w0 vs).1 = score (bestFoldC score w0 vs).2 ∧
        score w0 ≤ (bestFoldC score w0 vs).1 ∧
        (∀ u ∈ l1, score u < (bestFoldC score w0 vs).1) ∧
        (∀ u ∈ l2, score u ≤ (bestFoldC score w0 vs).1) := by
  intro vs
  induction vs with
  | nil =>
    intro w0
    refine ⟨[], [], by simp [bestFoldC], rfl, le_refl _, ?_, ?_⟩ <;>
      (intro u hu; simp at hu)
  | cons v2 vs ih =>
    intro w0
    rw [bestFoldC_cons]
    by_cases h : score w0 < score v2
    · rw [if_pos h]
      obtain ⟨l1, l2, hsplit, heq, hinit, hstrict, hle2⟩ := ih v2
      refine ⟨w0 :: l1, l2, ?_, heq, ?_, ?_, hle2⟩
      · rw [List.cons_append, ← hsplit]
      · exact le_of_lt (lt_of_lt_of_le h hinit)
      · intro u hu
        rcases List.mem_cons.mp hu with h' | h'
        · rw [h']; exact lt_of_lt_of_le h hinit
        · exact hstrict u h'
    · rw [if_neg h]
      obtain ⟨l1, l2, hsplit, heq, hinit, hstrict, hle2⟩ := ih w0
      cases l1 with
      | nil =>
        simp only [List.nil_append] at hsplit
        have hr : (bestFoldC score w0 vs).2 = w0 := (List.cons.injEq _ _ _ _ ▸ hsplit).1.symm
        have hl2 : l2 = vs := (List.cons.injEq _ _ _ _ ▸ hsplit).2.symm
        refine ⟨[], v2 :: l2, ?_, heq, hinit, ?_, ?_⟩
        · rw [List.nil_append, hr, hl2]
        · intro u hu; simp at hu
        · intro u hu
          rcases List.mem_cons.mp hu with h' | h'
          · rw [h']; exact le_trans (not_lt.mp h) hinit
          · exact hle2 u h'
      | cons a l1' =>
        rw [List.cons_append] at hsplit
        have ha : a = w0 := ((List.cons.injEq _ _ _ _ ▸ hsplit).1).symm
        have hvs : vs = l1' ++ (bestFoldC score w0 vs).2 :: l2 :=
          (List.cons.injEq _ _ _ _ ▸ hsplit).2
        have hw0 : score w0 < (bestFoldC score w0 vs).1 := by
          have := hstrict a (List.mem_cons_self _ _)
          rw [ha] at this
          exact this
        refine ⟨w0 :: v2 :: l1', l2, ?_, heq, hinit, ?_, hle2⟩
        · rw [List.cons_append, List.cons_append, ← hvs]
        · intro u hu
          rcases List.mem_cons.mp hu with h' | h'
          · rw [h']; exact hw0
          · rcases List.mem_cons.mp h' with h'' | h''
            · rw [h'']; exact lt_of_le_of_lt (not_lt.mp h) hw0
            · have := hstrict u (by rw [ha] at *; exact List.mem_cons_of_mem _ h'')
              exact this

theorem find?_append_first {α : Type} (p : α → Bool) (c : α) :
    ∀ (l1 l2 : List α), (∀ u ∈ l1, p u = false) → p c = true →
      (l1 ++ c :: l2).find? p = some c := by
  intro l1
  induction l1 with
  | nil =>
    intro l2 _ hc
    simp [List.find?_cons_of_pos, hc]
  | cons a l1 ih =>
    intro l2 h hc
    rw [List.cons_append, List.find?_cons_of_neg _ (by simp [h a (List.mem_cons_self _ _)])]
    exact ih l2 (fun u hu => h u (List.mem_cons_of_mem _ hu)) hc

theorem pickBest_eq_specPick (score : RCand → ℚ) (pool : List RCand) :
    pickBest score pool = specPickFirstMax score pool := by
  cases pool with
  | nil => rfl
  | cons w0 vs =>
    obtain ⟨l1, l2, hsplit, heq, _, hstrict, hle2⟩ := bestFoldC_spec score vs w0
    have hall : ∀ u ∈ w0 :: vs, score u ≤ score (bestFoldC score w0 vs).2 := by
      intro u hu
      rw [hsplit] at hu
      rcases List.mem_append.mp hu with h' | h'
      · exact le_of_lt (heq ▸ hstrict u h')
      · rcases List.mem_cons.mp h' with h'' | h''
        · rw [h'']
        · exact heq ▸ hle2 u h''
    show some (bestFoldC score w0 vs).2 = specPickFirstMax score (w0 :: vs)
    unfold specPickFirstMax
    rw [show w0 :: vs = l1 ++ (bestFoldC score w0 vs).2 :: l2 from hsplit]
    rw [find?_append_first]
    · intro u hu
      simp only [decide_eq_false_iff_not]
      intro hmax
      have h1 := hmax (bestFoldC score w0 vs).2
        (List.mem_append_right _ (List.mem_cons_self _ _))
      have h2 := heq ▸ hstrict u hu
      exact absurd h1 (not_le.mpr h2)
    · simp only [decide_eq_true_eq]
      intro u hu
      rw [← hsplit] at hu
      exact hall u hu

theorem pickBest_mem (score : RCand → ℚ) (pool : List RCand) (c : RCand)
    (h : pickBest score pool = some c) : c ∈ pool := by
  cases pool with
  | nil => simp [pickBest] at h
  | cons w0 vs =>
    obtain ⟨l1, l2, hsplit, -, -, -, -⟩ := bestFoldC_spec score vs w0
    have : c = (bestFoldC score w0 vs).2 := by
      simpa [pickBest] using h.symm
    rw [this, hsplit]
    exact List.mem_append_right _ (List.mem_cons_self _ _)

theorem mmrRounds_eq_spec (lam : ℚ) (rel : RCand → String → ℚ)
    (sim : RCand → RCand → ℚ) :
    ∀ (fs : List String) (st : List RCand × List RCand),
      mmrRounds lam rel sim fs st = specRounds lam rel sim fs st := by
  intro fs
  induction fs with
  | nil => intro st; rfl
  | cons f fs ih =>
    rintro ⟨selected, remaining⟩
    simp only [mmrRounds, specRounds, pickBest_eq_specPick]
    cases h : specPickFirstMax (mmrScore lam rel sim selected f) remaining with
    | none => exact ih _
    | some best => exact ih _

theorem mmrRounds_length (lam : ℚ) (rel : RCand → String → ℚ)
    (sim : RCand → RCand → ℚ) :
    ∀ (fs : List String) (selected remaining : List RCand),
      (mmrRounds lam rel sim fs (selected, remaining)).1.length +
          (mmrRounds lam rel sim fs (selected, remaining)).2.length =
        selected.length + remaining.length := by
  intro fs
  induction fs with
  | nil => intro selected remaining; rfl
  | cons f fs ih =>
    intro selected remaining
    simp only [mmrRounds]
    cases h : pickBest (mmrScore lam rel sim selected f) remaining with
    | none => exact ih selected remaining
    | some best =>
      rw [ih (selected ++ [best]) (remaining.erase best)]
      have hmem := pickBest_mem _ _ _ h
      rw [List.length_erase_of_mem hmem, List.length_append]
      have : remaining.length ≠ 0 := by
        intro h0
        rw [List.length_eq_zero.mp h0] at hmem
        simp at hmem
      simp only [List.length_singleton]
      omega

theorem rankWith_length (rel : RCand → String → ℚ) (facts : List String) :
    ∀ (n : Nat) (l : List RCand), (rankWith rel facts n l).length = l.length := by
  intro n l
  induction l generalizing n with
  | nil => rfl
  | cons c cs ih => simp [rankWith, ih]

theorem rankWith_map_rank (rel : RCand → String → ℚ) (facts : List String) :
    ∀ (n : Nat) (l : List RCand),
      (rankWith rel facts n l).map (fun x => x.rank) = ranksFrom n l.length := by
  intro n l
  induction l generalizing n with
  | nil => rfl
  | cons c cs ih => simp [rankWith, ranksFrom, ih]

theorem rankWith_scores (rel : RCand → String → ℚ) (facts : List String) :
    ∀ (n : Nat) (l : List RCand) (x : RankedCand), x ∈ rankWith rel facts n l →
      x.visual_score = some (meanRel rel facts x.cand) := by
  intro n l
  induction l generalizing n with
  | nil => intro x hx; simp [rankWith] at hx
  | cons c cs ih =>
    intro x hx
    rcases List.mem_cons.mp hx with h | h
    · rw [h]
    · exact ih (n + 1) x h

theorem appendFailed_length : ∀ (n : Nat) (l : List RCand),
    (appendFailed n l).length = l.length := by
  intro n l
  induction l generalizing n with
  | nil => rfl
  | cons c cs ih => simp [appendFailed, ih]

theorem appendFailed_map_rank : ∀ (n : Nat) (l : List RCand),
    (appendFailed n l).map (fun x => x.rank) = ranksFrom (n + 1) l.length := by
  intro n l
  induction l generalizing n with
  | nil => rfl
  | cons c cs ih => simp [appendFailed, ranksFrom, ih]

theorem appendFailed_scores : ∀ (n : Nat) (l : List RCand) (x : RankedCand),
    x ∈ appendFailed n l → x.visual_score = some 0 := by
  intro n l
  induction l generalizing n with
  | nil => intro x hx; simp [appendFailed] at hx
  | cons c cs ih =>
    intro x hx
    rcases List.mem_cons.mp hx with h | h
    · rw [h]
    · exact ih (n + 1) x h

theorem ranksFrom_add : ∀ (a n b : Nat),
    ranksFrom n (a + b) = ranksFrom n a ++ ranksFrom (n + a) b := by
  intro a
  induction a with
  | zero => intro n b; simp [ranksFrom]
  | succ a ih =>
    intro n b
    rw [Nat.succ_add]
    show some n :: ranksFrom (n + 1) (a + b) = _
    rw [ih (n + 1) b, show (n + 1) + a = n + (a + 1) from by omega]
    rfl

theorem specOrder_length (lam : ℚ) (rel : RCand → String → ℚ)
    (sim : RCand → RCand → ℚ) (facts : List String) (valid : List RCand) :
    (specOrder lam rel sim facts valid).length = valid.length := by
  unfold specOrder
  rw [← mmrRounds_eq_spec, List.length_append]
  have := mmrRounds_length lam rel sim (facts.take valid.length) [] valid
  simpa using this

/-- **C3 (amended).** Provided at least one thumbnail is fetched (and the
key-fact list is non-empty), the ranker output equals: one selection round
per key fact, each picking the first not-yet-selected candidate attaining
the maximal MMR score (ties to the first in iteration order), then the
remaining fetched candidates in their original order — all ranked from 1
and scored by mean relevance — followed by the candidates whose thumbnail
failed, in order, with score 0.0, ranks contiguous from 1. -/
theorem C3_ranker_mmr (lam : ℚ) (rel : RCand → String → ℚ) (sim : RCand → RCand → ℚ)
    (fetchOk : RCand → Bool) (candidates : List RCand) (facts : List String)
    (hfacts : facts ≠ []) (hvalid : ∃ c ∈ candidates, fetchOk c = true) :
    rank_media lam rel sim fetchOk candidates facts =
      rankWith rel facts 1
          (specOrder lam rel sim facts (candidates.filter fetchOk)) ++
        appendFailed (candidates.filter fetchOk).length
          (candidates.filter (fun c => !fetchOk c)) ∧
    (rank_media lam rel sim fetchOk candidates facts).map (fun x => x.rank) =
      ranksFrom 1 (rank_media lam rel sim fetchOk candidates facts).length ∧
    (∀ x ∈ rankWith rel facts 1
        (specOrder lam rel sim facts (candidates.filter fetchOk)),
      x.visual_score = some (meanRel rel facts x.cand)) ∧
    (∀ x ∈ appendFailed (candidates.filter fetchOk).length
        (candidates.filter (fun c => !fetchOk c)),
      x.visual_score = some 0) := by
  obtain ⟨c0, hc0, hok0⟩ := hvalid
  have hcne : ¬(candidates.isEmpty = true) := by
    cases candidates with
    | nil => simp at hc0
    | cons a l => simp
  have hfne : ¬(facts.isEmpty = true) := by
    cases facts with
    | nil => cases hfacts rfl
    | cons a l => simp
  have hvne : ¬((candidates.filter fetchOk).isEmpty = true) := by
    have hmem : c0 ∈ candidates.filter fetchOk := List.mem_filter.mpr ⟨hc0, hok0⟩
    intro h
    rw [List.isEmpty_iff.mp h] at hmem
    simp at hmem
  have hcalc : calculate_mmr_scores lam rel sim facts (candidates.filter fetchOk) =
      rankWith rel facts 1 (specOrder lam rel sim facts (candidates.filter fetchOk)) := by
    unfold calculate_mmr_scores specOrder
    rw [mmrRounds_eq_spec]
  have hmain : rank_media lam rel sim fetchOk candidates facts =
      rankWith rel facts 1
          (specOrder lam rel sim facts (candidates.filter fetchOk)) ++
        appendFailed (candidates.filter fetchOk).length
          (candidates.filter (fun c => !fetchOk c)) := by
    unfold rank_media
    rw [if_neg hcne, if_neg hfne]
    dsimp only
    rw [if_neg hvne, hcalc, rankWith_length, specOrder_length]
  refine ⟨hmain, ?_, ?_, ?_⟩
  · rw [hmain, List.map_append, rankWith_map_rank, appendFailed_map_rank,
      specOrder_length, List.length_append, rankWith_length, specOrder_length,
      appendFailed_length, ranksFrom_add]
    congr 2
    omega
  · intro x hx
    exact rankWith_scores rel facts 1 _ x hx
  · intro x hx
    exact appendFailed_scores _ _ x hx

/-- **C3 counterexample.** When every candidate's thumbnail fetch fails,
`rank_media` returns the candidates unranked (no rank, no score), not
"appended at the end with score 0.0, ranks contiguous from 1" as the claim
requires for every candidate pool. -/
theorem C3_counterexample :
    rank_media 0 (fun _ _ => 0) (fun _ _ => 0) (fun _ => false) [⟨"u"⟩] ["f"] =
      [⟨⟨"u"⟩, none, none⟩] ∧
    ∀ x ∈ rank_media 0 (fun _ _ => 0) (fun _ _ => 0) (fun _ => false) [⟨"u"⟩] ["f"],
      x.rank = none ∧ ¬(x.visual_score = some 0) := by
  refine ⟨rfl, ?_⟩
  intro x hx
  have hx2 : x = ⟨⟨"u"⟩, none, none⟩ := by
    have : x ∈ [(⟨⟨"u"⟩, none, none⟩ : RankedCand)] := hx
    simpa using this
  rw [hx2]
  exact ⟨rfl, by simp⟩

theorem C3_ranker_mmr_witness :
    rank_media 0 (fun _ _ => 0) (fun _ _ => 0) (fun _ => true) [(⟨"u"⟩ : RCand)] ["f"] =
      rankWith (fun _ _ => 0) ["f"] 1
          (specOrder 0 (fun _ _ => 0) (fun _ _ => 0) ["f"]
            (List.filter (fun _ => true) [(⟨"u"⟩ : RCand)])) ++
        appendFailed (List.filter (fun _ => true) [(⟨"u"⟩ : RCand)]).length
          (List.filter (fun c => !(fun _ : RCand => true) c) [(⟨"u"⟩ : RCand)]) ∧
    (rank_media 0 (fun _ _ => 0) (fun _ _ => 0) (fun _ => true) [(⟨"u"⟩ : RCand)] ["f"]).map
        (fun x => x.rank) =
      ranksFrom 1
        (rank_media 0 (fun _ _ => 0) (fun _ _ => 0) (fun _ => true) [(⟨"u"⟩ : RCand)] ["f"]).length ∧
    (∀ x ∈ rankWith (fun _ _ => 0) ["f"] 1
        (specOrder 0 (fun _ _ => 0) (fun _ _ => 0) ["f"]
          (List.filter (fun _ => true) [(⟨"u"⟩ : RCand)])),
      x.visual_score = some (meanRel (fun _ _ => 0) ["f"] x.cand)) ∧
    (∀ x ∈ appendFailed (List.filter (fun _ => true) [(⟨"u"⟩ : RCand)]).length
        (List.filter (fun c => !(fun _ : RCand => true) c) [(⟨"u"⟩ : RCand)]),
      x.visual_score = some 0) :=
  C3_ranker_mmr 0 (fun _ _ => 0) (fun _ _ => 0) (fun _ => true) [(⟨"u"⟩ : RCand)] ["f"]
    (by simp) ⟨⟨"u"⟩, by simp, rfl⟩
